import Mathlib

/-!
Verification development for the ocp-tessellate conversion core
(`src/ocp_tessellate/convert_alt.py`, with `convert.py` as the superseded
variant).  The embedding models locations (rigid transforms,
`TopLoc_Location`) as elements of an arbitrary group `α`: composition is
`*`, `identity_location()` is `1`, and `Inverted()` is `⁻¹`.  Topological
identity (`TShape`) is a natural number key, as `get_tshape` only ever
feeds equality comparison.
-/

universe u

/-- A wrapped solid as seen by `convert_alt.py`: `tshape` is the underlying
topology identity (`get_tshape`), `loc` the attached `TopLoc_Location`
(`get_location`, `none` when the object carries no location), `label` the
build123d `label` attribute (`none` for missing or empty). -/
structure Solid (α : Type u) where
  tshape : Nat
  loc : Option α
  label : Option String
deriving DecidableEq, Repr

/-- The instance table threaded through `_to_assembly`: entries are
`(get_tshape(obj), part.shape[0])` appended by `get_instance`
(convert_alt.py:537). -/
abbrev Insts (α : Type u) := List (Nat × Solid α)

/-- Color information. `get_rgba` lives in the external `ocp_utils`
collaborator; the model carries the `(obj_color, obj_alpha)` pair through
unchanged, which is all the claims inspect. -/
abbrev Rgba := Option Nat × Option Nat

mutual
/-- Scene-graph node, mirroring `OCP_Part` / `OCP_PartGroup` from
`cad_objects` (declared but not provided under `src/`; fields follow the
spec's ShapeNode/GroupNode data model and the uses in `convert_alt.py`).
A `part` either references the instance table (`ref = some i`, the
`{"ref": i}` dict) or owns its solid inline (`shape`). -/
inductive PObject (α : Type u) where
  | part (name : String) (ref : Option Nat) (shape : Option (Solid α))
      (rgba : Rgba) (loc : Option α)
  | group (name : String) (loc : Option α) (objects : PList α)
/-- A `list` of scene-graph nodes (`OCP_PartGroup.objects`), as a mutual
inductive so that the builder can recurse structurally. -/
inductive PList (α : Type u) where
  | nil
  | cons (o : PObject α) (os : PList α)
end

mutual
/-- Input objects fed to `_to_assembly`, restricted to the variants the
claims exercise: wrapped solids, build123d assemblies, plain Python lists,
pre-built `OCP_PartGroup`s / `OCP_Part`-like nodes, silently skipped
scalars and unsupported objects. -/
inductive CadObj (α : Type u) where
  | solidObj (s : Solid α)
  | assembly (label : Option String) (loc : Option α) (children : CadList α)
  | pyList (elems : CadList α)
  | partGroup (name : String) (loc : Option α) (objects : PList α)
  | partObj (p : PObject α)
  | scalar (n : Int)
  | unsupported
/-- A list of input objects, as a mutual inductive for structural
recursion. -/
inductive CadList (α : Type u) where
  | nil
  | cons (c : CadObj α) (cs : CadList α)
end

namespace PList

/-- Number of objects in a part list (`len(pg.objects)`). -/
def length {α : Type u} : PList α → Nat
  | .nil => 0
  | .cons _ os => 1 + os.length

/-- Append one object (`pg.add(part)`). -/
def push {α : Type u} : PList α → PObject α → PList α
  | .nil, x => .cons x .nil
  | .cons o os, x => .cons o (os.push x)

end PList

/-- The name of a node (`obj.name`). -/
def pname {α : Type u} : PObject α → String
  | .part n _ _ _ _ => n
  | .group n _ _ => n

/-- The location of a node (`obj.loc`). -/
def ploc {α : Type u} : PObject α → Option α
  | .part _ _ _ _ l => l
  | .group _ l _ => l

/-- Replace a node's name (`obj.name = name`). -/
def setName {α : Type u} (n : String) : PObject α → PObject α
  | .part _ r s c l => .part n r s c l
  | .group _ l os => .group n l os

/-- Replace a node's location (`obj.loc = loc`). -/
def setLoc {α : Type u} (l : Option α) : PObject α → PObject α
  | .part n r s c _ => .part n r s c l
  | .group n _ os => .group n l os

/-- Names of the immediate children, in order. -/
def namesOfPL {α : Type u} : PList α → List String
  | .nil => []
  | .cons o os => pname o :: namesOfPL os

/-- Instance references of the immediate children, in order (`none` for
groups and inline parts). -/
def refsOfPL {α : Type u} : PList α → List (Option Nat)
  | .nil => []
  | .cons (.part _ r _ _ _) os => r :: refsOfPL os
  | .cons (.group _ _ _) os => none :: refsOfPL os

/-- Locations of the immediate children, in order. -/
def locsOfPL {α : Type u} : PList α → List (Option α)
  | .nil => []
  | .cons o os => ploc o :: locsOfPL os

/-- Increment the collision counter for `s`
(`found[name] += 1` in `make_unique`). -/
def bumpCount (counts : List (String × Nat)) (s : String) : List (String × Nat) :=
  counts.map (fun p => if p.1 == s then (p.1, p.2 + 1) else p)

/-- Modelled from the spec: the core of `make_unique`
(`ocp_tessellate/utils.py`, not provided under `src/`): collisions among
sibling names are resolved deterministically by suffixing `~N` in
first-seen order — the first occurrence keeps its name, the k-th further
occurrence of the same name becomes `name~k`. -/
def muGoS (counts : List (String × Nat)) : List String → List String
  | [] => []
  | s :: rest =>
    match counts.lookup s with
    | none => s :: muGoS ((s, 1) :: counts) rest
    | some k => (s ++ "~" ++ toString k) :: muGoS (bumpCount counts s) rest

/-- Modelled from the spec: `make_unique` on a list of sibling names. -/
def makeUniqueS (names : List String) : List String :=
  muGoS [] names

/-- Modelled from the spec: `make_unique` applied to the caller-supplied
`names` argument, whose entries may be `None`; `None` entries pass through
untouched. -/
def muGoO (counts : List (String × Nat)) : List (Option String) → List (Option String)
  | [] => []
  | none :: rest => none :: muGoO counts rest
  | some s :: rest =>
    match counts.lookup s with
    | none => some s :: muGoO ((s, 1) :: counts) rest
    | some k => some (s ++ "~" ++ toString k) :: muGoO (bumpCount counts s) rest

/-- Modelled from the spec: `make_unique` on optional names. -/
def makeUniqueO (names : List (Option String)) : List (Option String) :=
  muGoO [] names

/-- Assign new names positionally
(`for name, obj in zip(names, objs): obj.name = name`). -/
def applyNames {α : Type u} : List String → PList α → PList α
  | n :: ns, .cons o os => .cons (setName n o) (applyNames ns os)
  | _, os => os

/-- The sibling-renaming pass
(`names = make_unique([obj.name for obj in objs]); for name, obj in zip ...`,
convert_alt.py:1172-1174 and the analogous 812-814, 919-921, 960-962). -/
def renameList {α : Type u} (os : PList α) : PList α :=
  applyNames (makeUniqueS (namesOfPL os)) os

/-- `OCP_PartGroup` as used by the builder: a name, a location, and an
ordered list of children. -/
structure PGroup (α : Type u) where
  name : String
  loc : Option α
  objects : PList α

/-- `pg.add(part)` (cad_objects, declared but not provided; it appends to
`pg.objects`). -/
def pgAdd {α : Type u} (pg : PGroup α) (x : PObject α) : PGroup α :=
  { pg with objects := pg.objects.push x }

/-- The per-iteration repair `if pg.loc is None: pg.loc = identity_location()`
(convert_alt.py:1169-1170). -/
def pgFix {α : Type u} [Group α] (pg : PGroup α) : PGroup α :=
  { pg with loc := some (pg.loc.getD 1) }

/-- The fresh group each `_to_assembly` call starts from:
`OCP_PartGroup([], "Group", identity_location())` (convert_alt.py:613). -/
def emptyPG {α : Type u} [Group α] : PGroup α :=
  ⟨"Group", some 1, .nil⟩

/-- The closing sibling-renaming pass of `_to_assembly`
(convert_alt.py:1172-1174). -/
def finishPG {α : Type u} (pg : PGroup α) : PGroup α :=
  { pg with objects := renameList pg.objects }

/-- `relocate` (convert_alt.py:552-564): when the object has a location and
a wrapped shape, a copy is moved by the inverted location
(`obj.wrapped.Move(loc.Inverted())`, composing as `loc⁻¹ * loc`) with its
`TShape` restored, and the location is handed back; otherwise the object
itself is returned together with `identity_location()`.  In this value-level
model every `Solid` is wrapped. -/
def relocate {α : Type u} [Group α] (s : Solid α) : Solid α × α :=
  match s.loc with
  | none => (s, 1)
  | some l => ({ s with loc := some (l⁻¹ * l) }, l)

/-- `get_name` (convert_alt.py:571-574). -/
def get_name (name : Option String) (count : Nat) (singular plural : String) : String :=
  name.getD (if count > 1 then plural else singular)

/-- The solid-list arm of `conv` (convert_alt.py:441-448): a single wrapped
solid becomes an `OCP_Part` owning the shape, named via `get_name`.
`cache_id` (`id(cad_obj)`) is a CPython address used only as a render-cache
key and is not modelled. -/
def conv_solid {α : Type u} (obj : Solid α) (obj_name : Option String) (rgba : Rgba) :
    PObject α :=
  .part (get_name obj_name 1 "Solid" "Solids") none (some obj) rgba none

/-- `get_instance` (convert_alt.py:508-549): relocate, scan the instance
table for an entry with the same `TShape` (first hit wins), and either
return a referential part for the existing index, or convert the shape,
append `(tshape, shape)` to the table and return a referential part for the
new last index.  The factored-out location of this occurrence is attached
to the part in both cases. -/
def get_instance {α : Type u} [Group α] (s : Solid α) (name : Option String)
    (rgba : Rgba) (insts : Insts α) : PObject α × Insts α :=
  let rl := relocate s
  let obj := rl.1
  let loc := rl.2
  match (insts : List (Nat × Solid α)).findIdx? (fun r => r.1 == obj.tshape) with
  | some i =>
    (.part (name.getD "Solid") (some i) none rgba (some loc), insts)
  | none =>
    let part := conv_solid obj name rgba
    let insts2 : Insts α := (insts : List (Nat × Solid α)) ++ [(obj.tshape, obj)]
    (.part (pname part) (some ((insts2 : List (Nat × Solid α)).length - 1)) none rgba
      (some loc), insts2)

/-- The transform lift of the build123d-assembly flattening
(convert_alt.py:804-807): a lone child inherits the wrapper's location when
it has none, and otherwise gets `wrapper.loc * child.loc`. -/
def composeLoc {α : Type u} [Group α] (parent child : Option α) : Option α :=
  match child with
  | none => parent
  | some c => parent.map (fun p => p * c)

/-- The `label` attribute of an input object, when present and non-empty. -/
def labelAttr {α : Type u} : CadObj α → Option String
  | .solidObj s => s.label
  | .assembly lbl _ _ => lbl
  | _ => none

/-- The `name` attribute of an input object, when present. -/
def nameAttr {α : Type u} : CadObj α → Option String
  | .partGroup n _ _ => some n
  | .partObj p => some (pname p)
  | _ => none

/-- First-of (`a if a is not None else b`). -/
def orO {β : Type u} (a b : Option β) : Option β :=
  match a with
  | some x => some x
  | none => b

/-- Number of input objects (`len(cad_objs)`). -/
def CadList.length {α : Type u} : CadList α → Nat
  | .nil => 0
  | .cons _ cs => 1 + cs.length

mutual
/-- One iteration of the `_to_assembly` object loop (convert_alt.py:615-1170)
for the modelled input variants.  Step (1) silently skips scalars; step (2)
skips unsupported objects with a printed message; step (3) resolves colors
(kept as the raw `(obj_color, obj_alpha)` pair, `get_rgba` being external);
step (4) falls back to the object's `label`/`name` attribute for the name;
the dispatch then mirrors cases (6.2) build123d assemblies, (6.5) plain
iterables, (6.8) pre-built part groups, (6.9) pre-built parts, and the
default solid branch (6.11/1136-1145) resolving through `get_instance`.
Each iteration ends with the `pg.loc is None` repair (1169-1170). -/
def handleObj {α : Type u} [Group α] (obj_name : Option String)
    (ocol oalp : Option Nat) (obj : CadObj α) (pg : PGroup α) (insts : Insts α) :
    PGroup α × Insts α :=
  match obj with
  | .scalar _ => (pgFix pg, insts)
  | .unsupported => (pgFix pg, insts)
  | .solidObj s =>
    let nm := orO obj_name s.label
    let rgba : Rgba := (ocol, oalp)
    let r := get_instance s nm rgba insts
    let part := if nm.isNone then setName "Solid" r.1 else r.1
    (pgFix (pgAdd pg part), r.2)
  | .assembly lbl loc cs =>
    let nm := orO obj_name lbl
    let name2 := nm.getD "Assembly"
    let pg20 : PGroup α := ⟨name2, some (loc.getD 1), .nil⟩
    let r := asmChildren ocol oalp cs pg20 insts
    let pg2 := { r.1 with objects := renameList r.1.objects }
    (pgFix (pgAdd pg (.group pg2.name pg2.loc pg2.objects)), r.2)
  | .pyList elems =>
    let pg20 : PGroup α := ⟨obj_name.getD "List", none, .nil⟩
    let r := listChildren obj_name ocol oalp elems pg20 insts
    let pg2 := r.1
    let pg3 :=
      match pg2.objects with
      | .nil => pg
      | .cons x .nil => pgAdd pg x
      | _ => pgAdd pg (.group pg2.name pg2.loc (renameList pg2.objects))
    (pgFix pg3, r.2)
  | .partGroup n l os =>
    (pgFix (pgAdd pg (.group n l (renameList os))), insts)
  | .partObj p =>
    (pgFix (pgAdd pg p), insts)

/-- The per-child recursion of case (6.2), build123d assemblies
(convert_alt.py:789-810): each child is run through `_to_assembly` on its
own (`names=None`, the child's wrapper group starting from
`OCP_PartGroup([], "Group", identity_location())` and ending with the
sibling-renaming pass, which is `finishPG (handleObj none ...)` unfolded
for a single object); a lone resulting child is lifted with
`part.loc * child.loc` and added directly, otherwise the wrapper is added
whole. -/
def asmChildren {α : Type u} [Group α] (ocol oalp : Option Nat) (cs : CadList α)
    (pg2 : PGroup α) (insts : Insts α) : PGroup α × Insts α :=
  match cs with
  | .nil => (pg2, insts)
  | .cons c rest =>
    let r := handleObj none ocol oalp c emptyPG insts
    let part := finishPG r.1
    let pg2a :=
      match part.objects with
      | .cons x .nil => pgAdd pg2 (setLoc (composeLoc part.loc (ploc x)) x)
      | _ => pgAdd pg2 (.group part.name part.loc part.objects)
    asmChildren ocol oalp rest pg2a r.2

/-- The per-child recursion of case (6.5), plain iterables
(convert_alt.py:879-913): the child name prefers the child's `name`
attribute, then its `label`, then the element's own name; a lone resulting
child is added directly (without any transform lift), a wrapper with
several children is added whole, and an empty wrapper is dropped. -/
def listChildren {α : Type u} [Group α] (obj_name : Option String)
    (ocol oalp : Option Nat) (cs : CadList α) (pg2 : PGroup α) (insts : Insts α) :
    PGroup α × Insts α :=
  match cs with
  | .nil => (pg2, insts)
  | .cons c rest =>
    let childName := orO (orO (nameAttr c) (labelAttr c)) obj_name
    let r := handleObj childName ocol oalp c emptyPG insts
    let part := finishPG r.1
    let pg2a :=
      match part.objects with
      | .nil => pg2
      | .cons x .nil => pgAdd pg2 x
      | _ => pgAdd pg2 (.group part.name part.loc part.objects)
    listChildren obj_name ocol oalp rest pg2a r.2

/-- The `zip(names, colors, alphas, cad_objs)` loop of `_to_assembly`
(convert_alt.py:615): iteration stops as soon as any of the four lists is
exhausted, exactly as `zip` truncates to the shortest input. -/
def loopObjs {α : Type u} [Group α] : List (Option String) → List (Option Nat) →
    List (Option Nat) → CadList α → PGroup α → Insts α → PGroup α × Insts α
  | n :: ns, c :: cs2, a :: as2, .cons o os, pg, insts =>
    let r := handleObj n c a o pg insts
    loopObjs ns cs2 as2 os r.1 r.2
  | _, _, _, _, pg, insts => (pg, insts)
end

/-- `_to_assembly` (convert_alt.py:577-1176) for the modelled fragment:
default the `names`/`colors`/`alphas` lists (`[None] * len(cad_objs)`),
run user-supplied names through `make_unique`, loop over the zipped lists,
and finish with the sibling-renaming pass.  Returns `(pg, instances)`. -/
def toAsmCore {α : Type u} [Group α] (objs : CadList α)
    (names : Option (List (Option String))) (colors alphas : Option (List (Option Nat)))
    (insts : Insts α) : PGroup α × Insts α :=
  let n := objs.length
  let ns := match names with
    | none => List.replicate n none
    | some l => makeUniqueO l
  let cols := colors.getD (List.replicate n none)
  let alps := alphas.getD (List.replicate n none)
  let r := loopObjs ns cols alps objs emptyPG insts
  (finishPG r.1, r.2)

/-- The single-child flattening of `to_assembly` (convert_alt.py:1212-1217):
when the wrapper holds exactly one object and it is a part group, the
child's location is composed (`pg.loc * child.loc`, the child inheriting
`pg.loc` when it has none) and the wrapper is replaced by the child. -/
def flattenTop {α : Type u} [Group α] (pg : PGroup α) : PGroup α :=
  match pg.objects with
  | .cons (.group n l os) .nil =>
    ⟨n,
      (match l with
       | none => pg.loc
       | some cl =>
         match pg.loc with
         | none => some cl
         | some pl => some (pl * cl)),
      os⟩
  | _ => pg

/-- `to_assembly` (convert_alt.py:1179-1219): `_to_assembly` followed by the
single-child flattening. -/
def toAssembly {α : Type u} [Group α] (objs : CadList α)
    (names : Option (List (Option String))) (colors alphas : Option (List (Option Nat)))
    (insts : Insts α) : PGroup α × Insts α :=
  let r := toAsmCore objs names colors alphas insts
  (flattenTop r.1, r.2)

/-- The instance-tessellation loop of `tessellate_group`
(convert_alt.py:206-231): each instance is handed to the external mesh
generator (`tessellate`, from the `tessellator` collaborator, whose
interface per the spec is `generate_mesh -> Mesh | Error`) exactly once, in
registration order, the meshes being appended to `meshed_instances`.  The
loop body contains no error handling, so a raised meshing error propagates
and aborts the whole loop, which is the `Except` bind. -/
def tessellate_instances {α : Type u} {μ : Type} (tess : Solid α → Except String μ) :
    Insts α → Except String (List μ)
  | [] => .ok []
  | p :: rest =>
    match tess p.2 with
    | .error e => .error e
    | .ok m =>
      match tessellate_instances tess rest with
      | .error e => .error e
      | .ok ms => .ok (m :: ms)

/-- Modelled from the spec: a concrete bounding box (`{min, max}` per axis),
the payload stored in a leaf's `"bb"` slot, with integer coordinates. -/
structure BBoxV where
  x1 : Int
  x2 : Int
  y1 : Int
  y2 : Int
  z1 : Int
  z2 : Int
deriving DecidableEq, Repr

/-- Modelled from the spec: the `BoundingBox` class of `ocp_utils` (not
provided under `src/`): `BoundingBox()` with no argument is the empty
default box, `BoundingBox(b)` wraps a concrete box. -/
inductive BB where
  | empty
  | box (b : BBoxV)
deriving DecidableEq, Repr

/-- Modelled from the spec: `BoundingBox.update` takes the componentwise
union; the empty default box is neutral. -/
def BB.update : BB → BBoxV → BB
  | .empty, v => .box v
  | .box b, v =>
    .box ⟨min b.x1 v.x1, max b.x2 v.x2, min b.y1 v.y1, max b.y2 v.y2,
      min b.z1 v.z1, max b.z2 v.z2⟩

mutual
/-- The `shapes` dict tree handed to `add_bb` / `combined_bb`: a leaf is a
shape dict (`"type"`, its instance `"ref"`, its `"loc"` kept as an opaque
token, and the `"bb"` slot — `none` when the key is absent, `some none`
when present but `None`, `some (some v)` when present with a box); a node
is a dict with a `"parts"` list. -/
inductive STree where
  | leaf (typ : String) (ref : Nat) (loc : Int) (bb : Option (Option BBoxV))
  | node (parts : SList)
/-- A `"parts"` list, as a mutual inductive for structural recursion. -/
inductive SList where
  | nil
  | cons (t : STree) (ts : SList)
end

/-- One leaf step of `c_bb` (convert_alt.py:264-272): with no accumulator
yet, an absent (`None`) leaf box starts the accumulator at the empty
default `BoundingBox()` and a present one at `BoundingBox(b)`; with an
accumulator, a present box is merged by `update` and an absent one is
skipped. -/
def stepBB (acc : Option BB) (b : Option BBoxV) : Option BB :=
  match acc with
  | none =>
    match b with
    | none => some .empty
    | some v => some (.box v)
  | some a =>
    match b with
    | none => some a
    | some v => some (a.update v)

/-- The recursive walk `c_bb` of `combined_bb` (convert_alt.py:262-278): the
accumulator is threaded through the `"parts"` list in order; every leaf's
`"bb"` entry is read (a missing key raises `KeyError`, the `.error` case)
and then deleted (`del shape["bb"]`, line 275), so the returned tree has
all visited `"bb"` keys removed. -/
def cbbList : SList → Option BB → Except Unit (Option BB × SList)
  | .nil, acc => .ok (acc, .nil)
  | .cons (.leaf typ ref loc bbKey) rest, acc =>
    match bbKey with
    | none => .error ()
    | some b =>
      match cbbList rest (stepBB acc b) with
      | .error e => .error e
      | .ok (accF, restF) => .ok (accF, .cons (.leaf typ ref loc none) restF)
  | .cons (.node parts) rest, acc =>
    match cbbList parts acc with
    | .error e => .error e
    | .ok (acc2, parts2) =>
      match cbbList rest acc2 with
      | .error e => .error e
      | .ok (accF, restF) => .ok (accF, .cons (.node parts2) restF)

/-- `combined_bb` (convert_alt.py:261-281): run `c_bb` over the root's
parts starting from `bb = None`; the overall box plus the (key-stripped)
tree is returned — the Python version strips in place. -/
def combined_bb : STree → Except Unit (Option BB × STree)
  | .leaf _ _ _ _ => .error ()
  | .node parts =>
    match cbbList parts none with
    | .error e => .error e
    | .ok (b, parts2) => .ok (b, .node parts2)

/-- The walk of `add_bb` inside `tessellate_group` (convert_alt.py:172-188):
every leaf of type `"shapes"` gets its `"bb"` slot set to
`np_bbox(meshed_instances[ind]["vertices"], *shape["loc"])`; other leaves
are untouched.  `np_bbox` is external (`ocp_utils`), abstracted as the
function argument `npB` from the mesh and the location token; an
out-of-range `ref` is the `IndexError` case.  Meshes are opaque ids. -/
def addBBList (npB : Nat → Int → BBoxV) (meshes : List Nat) :
    SList → Except Unit SList
  | .nil => .ok .nil
  | .cons (.leaf typ ref loc bb) rest =>
    match (if typ == "shapes" then
            match meshes.get? ref with
            | none => (.error () : Except Unit STree)
            | some m => .ok (.leaf typ ref loc (some (some (npB m loc))))
          else .ok (.leaf typ ref loc bb)) with
    | .error e => .error e
    | .ok l2 =>
      match addBBList npB meshes rest with
      | .error e => .error e
      | .ok r2 => .ok (.cons l2 r2)
  | .cons (.node parts) rest =>
    match addBBList npB meshes parts with
    | .error e => .error e
    | .ok parts2 =>
      match addBBList npB meshes rest with
      | .error e => .error e
      | .ok r2 => .ok (.cons (.node parts2) r2)

/-- `add_bb` on the root tree. -/
def add_bb (npB : Nat → Int → BBoxV) (meshes : List Nat) :
    STree → Except Unit STree
  | .leaf _ _ _ _ => .error ()
  | .node parts =>
    match addBBList npB meshes parts with
    | .error e => .error e
    | .ok parts2 => .ok (.node parts2)

/-- All leaves still carry their `"bb"` key. -/
def keysPresent : SList → Bool
  | .nil => true
  | .cons (.leaf _ _ _ bb) rest => bb.isSome && keysPresent rest
  | .cons (.node parts) rest => keysPresent parts && keysPresent rest

/-- All leaves have type `"shapes"`. -/
def allShapes : SList → Bool
  | .nil => true
  | .cons (.leaf typ _ _ _) rest => (typ == "shapes") && allShapes rest
  | .cons (.node parts) rest => allShapes parts && allShapes rest

/-- The leaf `"bb"` values in traversal order (reading an absent key as
`None`; only used under `keysPresent`). -/
def leafBoxes : SList → List (Option BBoxV)
  | .nil => []
  | .cons (.leaf _ _ _ bb) rest => bb.getD none :: leafBoxes rest
  | .cons (.node parts) rest => leafBoxes parts ++ leafBoxes rest

/-- The tree with every leaf's `"bb"` key removed — what `c_bb`'s
`del shape["bb"]` leaves behind. -/
def stripAll : SList → SList
  | .nil => .nil
  | .cons (.leaf typ ref loc _) rest => .cons (.leaf typ ref loc none) (stripAll rest)
  | .cons (.node parts) rest => .cons (.node (stripAll parts)) (stripAll rest)

/-- Fold of the present boxes only, starting from the empty default box. -/
def unionPresent (vs : List (Option BBoxV)) : BB :=
  vs.foldl (fun a ov => match ov with | none => a | some v => a.update v) .empty

/-- Heap-level objects for the copy semantics of `relocate`: `wrapped` is
the `hasattr(obj, "wrapped")` test. -/
structure SolidData (α : Type u) where
  tshape : Nat
  loc : Option α
  wrapped : Bool
deriving DecidableEq, Repr

/-- `relocate` (convert_alt.py:552-564) with the heap made explicit: objects
live in a store indexed by position, `copy_shape` appends a fresh copy, and
the copy alone is moved into the canonical pose (`Move(loc.Inverted())`
composing to `loc⁻¹ * loc`) with its `TShape` restored.  When the object
has no location or no wrapped shape, the object itself is returned with
`identity_location()`. -/
def relocateStore {α : Type u} [Group α] (st : List (SolidData α)) (i : Nat) :
    List (SolidData α) × Nat × α :=
  match st[i]? with
  | none => (st, i, 1)
  | some o =>
    match o.loc with
    | none => (st, i, 1)
    | some l =>
      if o.wrapped then
        (st ++ [{ o with loc := some (l⁻¹ * l) }], st.length, l)
      else (st, i, 1)

/-- Whether an `Except` computation succeeded. -/
def isOkE {ε β : Type _} : Except ε β → Bool
  | .ok _ => true
  | .error _ => false

/-- No duplicates in a list of names. -/
def nodupB : List String → Bool
  | [] => true
  | s :: rest => (!rest.contains s) && nodupB rest

mutual
/-- Every group node in this subtree has pairwise-distinct immediate child
names. -/
def uniqueNamesP {α : Type u} : PObject α → Bool
  | .part _ _ _ _ _ => true
  | .group _ _ os => nodupB (namesOfPL os) && uniqueNamesL os
/-- `uniqueNamesP` over a child list. -/
def uniqueNamesL {α : Type u} : PList α → Bool
  | .nil => true
  | .cons o os => uniqueNamesP o && uniqueNamesL os
end

/-- Every group node of the finished tree (the root included) has
pairwise-distinct immediate child names. -/
def uniqueNamesPG {α : Type u} (pg : PGroup α) : Bool :=
  nodupB (namesOfPL pg.objects) && uniqueNamesL pg.objects

/-- The two-phase box pass as run by `tessellate_group` then the caller:
`add_bb` populates the leaf boxes from the mesh table, `combined_bb` folds
and strips them. -/
def pipeline (npB : Nat → Int → BBoxV) (meshes : List Nat) (t : STree) :
    Except Unit (Option BB × STree) :=
  match add_bb npB meshes t with
  | .error e => .error e
  | .ok t2 => combined_bb t2

/-- A flat all-solid input list. -/
def solidsToCad {α : Type u} : List (Solid α) → CadList α
  | [] => .nil
  | s :: rest => .cons (.solidObj s) (solidsToCad rest)

/-- A concrete location group for the closed examples: `Multiplicative ℤ`
(composition is addition of translation offsets). -/
abbrev Mz := Multiplicative ℤ

/-- Concrete nested input for the flattening claim: assembly `A` at
location 2 containing assembly `B` at location 3 containing one solid. -/
def exNested : CadList Mz :=
  .cons (.assembly none (some (Multiplicative.ofAdd 2))
    (.cons (.assembly none (some (Multiplicative.ofAdd 3))
      (.cons (.solidObj ⟨0, none, none⟩) .nil)) .nil)) .nil

/-- Concrete input for the name-uniqueness claim: a pre-built part group
whose nested inner group carries two children both named `x`. -/
def exDupGroup : CadList Mz :=
  .cons (.partGroup "outer" (some 1)
    (.cons (.group "inner" (some 1)
      (.cons (.part "x" none none (none, none) none)
        (.cons (.part "x" none none (none, none) none) .nil))) .nil)) .nil

/-- Three distinct concrete solids. -/
def exThreeSolids : CadList Mz :=
  .cons (.solidObj ⟨1, none, none⟩)
    (.cons (.solidObj ⟨2, none, none⟩)
      (.cons (.solidObj ⟨3, none, none⟩) .nil))

/-- A shapes tree with a single leaf whose box is present. -/
def exBoxed : STree :=
  .node (.cons (.leaf "shapes" 0 0 (some (some ⟨0, 1, 0, 1, 0, 1⟩))) .nil)

/-- `exBoxed` after `combined_bb` deleted the leaf's `"bb"` key. -/
def exStripped : STree :=
  .node (.cons (.leaf "shapes" 0 0 none) .nil)

/-- A shapes tree whose only leaf has `"bb"` present but `None`. -/
def exAllAbsent : STree :=
  .node (.cons (.leaf "shapes" 0 0 (some none)) .nil)

/-- A mesh generator that fails on topology id 0 and meshes everything
else. -/
def failTess : Solid Mz → Except String Nat :=
  fun s => if s.tshape == 0 then .error "meshing failed" else .ok 7

/-- A two-entry instance table whose first entry fails to mesh. -/
def exInsts : Insts Mz :=
  [(0, ⟨0, none, none⟩), (1, ⟨1, none, none⟩)]

mutual
/-- Some group node in this subtree has exactly one child. -/
def hasSingletonGroupP {α : Type u} : PObject α → Bool
  | .part _ _ _ _ _ => false
  | .group _ _ os => (os.length == 1) || hasSingletonGroupL os
/-- `hasSingletonGroupP` over a child list. -/
def hasSingletonGroupL {α : Type u} : PList α → Bool
  | .nil => false
  | .cons o os => hasSingletonGroupP o || hasSingletonGroupL os
end

/-- Two concrete solids sharing one topology identity. -/
def twoSameSolids : CadList Mz :=
  .cons (.solidObj ⟨0, none, none⟩) (.cons (.solidObj ⟨0, none, none⟩) .nil)

theorem cbb_ok : (ps : SList) → (acc : Option BB) → keysPresent ps = true →
    cbbList ps acc = .ok ((leafBoxes ps).foldl stepBB acc, stripAll ps)
  | .nil, _, _ => rfl
  | .cons (.leaf typ ref loc bbKey) rest, acc, h => by
    simp only [keysPresent, Bool.and_eq_true] at h
    obtain ⟨h1, h2⟩ := h
    obtain ⟨b, hb⟩ := Option.isSome_iff_exists.mp h1
    subst hb
    simp [cbbList, leafBoxes, stripAll, cbb_ok rest (stepBB acc b) h2]
  | .cons (.node parts) rest, acc, h => by
    simp only [keysPresent, Bool.and_eq_true] at h
    simp [cbbList, leafBoxes, stripAll, List.foldl_append,
      cbb_ok parts acc h.1, cbb_ok rest _ h.2]

theorem foldl_step_some (vs : List (Option BBoxV)) (a : BB) :
    vs.foldl stepBB (some a)
      = some (vs.foldl
          (fun x ov => match ov with | none => x | some v => x.update v) a) := by
  induction vs generalizing a with
  | nil => rfl
  | cons v rest ih => cases v <;> simp [stepBB, ih]

theorem foldl_step_none (v : Option BBoxV) (vs : List (Option BBoxV)) :
    (v :: vs).foldl stepBB none = some (unionPresent (v :: vs)) := by
  cases v <;> simp [stepBB, unionPresent, foldl_step_some, BB.update]

theorem cbb_strip : (ps : SList) → (acc b : Option BB) → (qs : SList) →
    cbbList ps acc = .ok (b, qs) → qs = stripAll ps
  | .nil, _, _, _, h => by
    simp [cbbList] at h
    simp [stripAll, h]
  | .cons (.leaf typ ref loc bbKey) rest, acc, b, qs, h => by
    match bbKey, h with
    | some b2, h => ?_
    cases hr : cbbList rest (stepBB acc b2) with
    | error e => simp [cbbList, hr] at h
    | ok p =>
      obtain ⟨accF, restF⟩ := p
      simp [cbbList, hr] at h
      have := cbb_strip rest (stepBB acc b2) accF restF hr
      simp [stripAll, ← h.2, this]
  | .cons (.node parts) rest, acc, b, qs, h => by
    cases hp : cbbList parts acc with
    | error e => simp [cbbList, hp] at h
    | ok p =>
      obtain ⟨acc2, parts2⟩ := p
      cases hr : cbbList rest acc2 with
      | error e => simp [cbbList, hp, hr] at h
      | ok q =>
        obtain ⟨accF, restF⟩ := q
        simp [cbbList, hp, hr] at h
        have e1 := cbb_strip parts acc acc2 parts2 hp
        have e2 := cbb_strip rest acc2 accF restF hr
        simp [stripAll, ← h.2, e1, e2]

theorem addBB_strip (npB : Nat → Int → BBoxV) (meshes : List Nat) :
    (ps qs : SList) → allShapes ps = true →
    addBBList npB meshes ps = .ok qs →
    addBBList npB meshes (stripAll qs) = .ok qs
  | .nil, qs, _, h => by
    simp [addBBList] at h
    simp [← h, stripAll, addBBList]
  | .cons (.leaf typ ref loc bb) rest, qs, hs, h => by
    simp only [allShapes, Bool.and_eq_true] at hs
    cases hm : meshes[ref]? with
    | none => simp [addBBList, hs.1, hm] at h
    | some m =>
      cases hr : addBBList npB meshes rest with
      | error e => simp [addBBList, hs.1, hm, hr] at h
      | ok r2 =>
        simp [addBBList, hs.1, hm, hr] at h
        have := addBB_strip npB meshes rest r2 hs.2 hr
        simp [← h, stripAll, addBBList, hs.1, hm, this]
  | .cons (.node parts) rest, qs, hs, h => by
    simp only [allShapes, Bool.and_eq_true] at hs
    cases hp : addBBList npB meshes parts with
    | error e => simp [addBBList, hp] at h
    | ok parts2 =>
      cases hr : addBBList npB meshes rest with
      | error e => simp [addBBList, hp, hr] at h
      | ok r2 =>
        simp [addBBList, hp, hr] at h
        have e1 := addBB_strip npB meshes parts parts2 hs.1 hp
        have e2 := addBB_strip npB meshes rest r2 hs.2 hr
        simp [← h, stripAll, addBBList, e1, e2]

/-- C5 (counterexample): with a mesh generator that fails on the first
shape-table entry, the tessellation loop of `tessellate_group` does not
record a per-entry error and continue — it aborts the whole run with the
propagated error, although the second entry would have meshed fine. -/
theorem mesh_failure_aborts_whole_loop :
    tessellate_instances failTess exInsts = .error "meshing failed"
    ∧ failTess ⟨1, none, none⟩ = .ok 7
    ∧ ∀ ms : List Nat, tessellate_instances failTess exInsts ≠ .ok ms := by
  refine ⟨rfl, rfl, fun ms h => ?_⟩
  rw [show tessellate_instances failTess exInsts = .error "meshing failed" from rfl] at h
  exact Except.noConfusion h

/-- C5 (amended): the instance-tessellation loop of `tessellate_group`
succeeds exactly when the external mesh generator succeeds on every entry;
a single meshing failure is not contained per-entry but aborts the whole
loop, yielding no mesh table at all. -/
theorem tessellate_instances_ok_iff {α : Type u} {μ : Type}
    (tess : Solid α → Except String μ) (insts : Insts α) :
    isOkE (tessellate_instances tess insts) = true
      ↔ ∀ p ∈ insts, isOkE (tess p.2) = true := by
  induction insts with
  | nil => simp [tessellate_instances, isOkE]
  | cons p rest ih =>
    constructor
    · intro h q hq
      rcases List.mem_cons.mp hq with rfl | hq2
      · cases ht : tess q.2 with
        | ok m => simp [isOkE]
        | error e => simp [tessellate_instances, ht, isOkE] at h
      · cases ht : tess p.2 with
        | error e => simp [tessellate_instances, ht, isOkE] at h
        | ok m =>
          cases hr : tessellate_instances tess rest with
          | error e => simp [tessellate_instances, ht, hr, isOkE] at h
          | ok ms =>
            have hrest : isOkE (tessellate_instances tess rest) = true := by
              simp [hr, isOkE]
            exact (ih.mp hrest) q hq2
    · intro hall
      have hp := hall p (List.mem_cons_self p rest)
      cases ht : tess p.2 with
      | error e => rw [ht] at hp; simp [isOkE] at hp
      | ok m =>
        have hrest : ∀ q ∈ rest, isOkE (tess q.2) = true :=
          fun q hq => hall q (List.mem_cons_of_mem p hq)
        have hok := ih.mpr hrest
        cases hr : tessellate_instances tess rest with
        | error e => rw [hr] at hok; simp [isOkE] at hok
        | ok ms => simp [tessellate_instances, ht, hr, isOkE]

/-- C6 (counterexample): a tree all of whose leaves lack a box (`"bb"`
present but `None`) does not yield an absent (`None`) overall box: the
first such leaf initializes the accumulator to the empty default
`BoundingBox()`, so `combined_bb` returns it. -/
theorem all_absent_boxes_not_none :
    combined_bb exAllAbsent = .ok (some BB.empty, exStripped)
    ∧ (some BB.empty : Option BB) ≠ none := ⟨rfl, by simp⟩

/-- C6 (amended): `combined_bb` computes a single overall box, not
per-group boxes: under presence of all `"bb"` keys it returns the union of
the present leaf boxes (with the empty default box as the starting
accumulator, so a tree with leaves but no present box yields the non-`None`
empty default box, and only a tree with no leaves at all yields `None`),
with absent leaf boxes skipped, and it strips every leaf's `"bb"` key from
the tree. -/
theorem combined_bb_union_of_present (ps : SList) (h : keysPresent ps = true) :
    combined_bb (.node ps)
      = .ok ((match leafBoxes ps with
              | [] => none
              | v :: vs => some (unionPresent (v :: vs))), .node (stripAll ps)) := by
  have hc := cbb_ok ps none h
  cases hl : leafBoxes ps with
  | nil =>
    rw [hl] at hc
    simp [combined_bb, hc]
  | cons v vs =>
    rw [hl] at hc
    rw [foldl_step_none v vs] at hc
    simp [combined_bb, hc]

/-- Witness for `combined_bb_union_of_present` at a concrete one-leaf
tree. -/
theorem combined_bb_union_of_present_witness :
    keysPresent (SList.cons (.leaf "shapes" 0 0 (some (some ⟨0, 1, 0, 1, 0, 1⟩))) .nil)
        = true
    ∧ combined_bb (.node (SList.cons
          (.leaf "shapes" 0 0 (some (some ⟨0, 1, 0, 1, 0, 1⟩))) .nil))
        = .ok (some (.box ⟨0, 1, 0, 1, 0, 1⟩),
            .node (SList.cons (.leaf "shapes" 0 0 none) .nil)) :=
  ⟨rfl, combined_bb_union_of_present _ rfl⟩

/-- C7 (counterexample): `combined_bb` is not a pure re-runnable function of
its input: the first run deletes the leaf's `"bb"` entry (the returned tree
differs from the input), and running it again on that tree raises a
`KeyError` instead of yielding the same box. -/
theorem combined_bb_second_run_fails :
    combined_bb exBoxed = .ok (some (.box ⟨0, 1, 0, 1, 0, 1⟩), exStripped)
    ∧ combined_bb exStripped = .error ()
    ∧ exStripped ≠ exBoxed := by
  refine ⟨rfl, rfl, ?_⟩
  simp [exBoxed, exStripped]

/-- C7 (amended): the full two-phase pass is deterministic even though
`combined_bb` consumes the leaf boxes: on an all-`"shapes"` tree, running
`add_bb` then `combined_bb`, and then running the same two phases again on
the stripped tree the first run left behind, repopulates exactly the same
boxes and returns the identical overall box and tree. -/
theorem pipeline_rerun_same_box (npB : Nat → Int → BBoxV) (meshes : List Nat)
    (ps : SList) (b : Option BB) (s1 : STree)
    (hs : allShapes ps = true)
    (h : pipeline npB meshes (.node ps) = .ok (b, s1)) :
    pipeline npB meshes s1 = .ok (b, s1) := by
  cases hq : addBBList npB meshes ps with
  | error e => simp only [pipeline, add_bb, hq] at h; exact absurd h (by simp)
  | ok qs =>
    simp only [pipeline, add_bb, hq] at h
    cases hc : cbbList qs none with
    | error e => simp [combined_bb, hc] at h
    | ok p =>
      obtain ⟨b2, s2⟩ := p
      simp [combined_bb, hc] at h
      obtain ⟨hb, hsn⟩ := h
      have hstrip := cbb_strip qs none b2 s2 hc
      have hre := addBB_strip npB meshes ps qs hs hq
      subst hb
      subst hsn
      subst hstrip
      simp [pipeline, add_bb, hre, combined_bb, hc]

/-- C10: `relocate` operates on a copy: the caller's object keeps its
original location and data unchanged; when the object has a location and a
wrapped shape, only the appended copy is moved into the canonical
(inverse-located, hence identity) pose with its topology preserved, and
when it has no location or no wrapped shape the object itself is returned
with the identity transform. -/
theorem relocate_copy_semantics {α : Type u} [Group α]
    (st : List (SolidData α)) (i : Nat) (o : SolidData α)
    (h : st[i]? = some o) :
    (relocateStore st i).1[i]? = some o
    ∧ ((o.loc = none ∨ o.wrapped = false) → relocateStore st i = (st, i, 1))
    ∧ (∀ l, o.loc = some l → o.wrapped = true →
        (relocateStore st i).2.1 = st.length
        ∧ (relocateStore st i).2.2 = l
        ∧ (relocateStore st i).1[st.length]?
            = some { o with loc := some 1 }) := by
  have hlt : i < st.length := (List.getElem?_eq_some.mp h).1
  refine ⟨?_, ?_, ?_⟩
  · cases holc : o.loc with
    | none => simp [relocateStore, h, holc]
    | some l =>
      cases hw : o.wrapped with
      | false => simp [relocateStore, h, holc, hw]
      | true =>
        simp only [relocateStore, h, holc, hw, if_true]
        rw [List.getElem?_append_left hlt]
        exact h
  · rintro (holc | hw)
    · simp [relocateStore, h, holc]
    · cases holc : o.loc with
      | none => simp [relocateStore, h, holc]
      | some l => simp [relocateStore, h, holc, hw]
  · intro l holc hw
    refine ⟨by simp [relocateStore, h, holc, hw], by simp [relocateStore, h, holc, hw], ?_⟩
    simp only [relocateStore, h, holc, hw, if_true]
    rw [List.getElem?_concat_length]
    simp [inv_mul_cancel]

/-- Witness for `relocate_copy_semantics` at a one-object store holding a
located, wrapped solid. -/
theorem relocate_copy_semantics_witness :
    (relocateStore [(⟨5, some (Multiplicative.ofAdd 2), true⟩ : SolidData Mz)] 0).1[0]?
        = some ⟨5, some (Multiplicative.ofAdd 2), true⟩
    ∧ (relocateStore [(⟨5, some (Multiplicative.ofAdd 2), true⟩ : SolidData Mz)] 0).1[1]?
        = some ⟨5, some 1, true⟩ := by
  have h := relocate_copy_semantics
    [(⟨5, some (Multiplicative.ofAdd 2), true⟩ : SolidData Mz)] 0
    ⟨5, some (Multiplicative.ofAdd 2), true⟩ rfl
  exact ⟨h.1, (h.2.2 (Multiplicative.ofAdd 2) rfl rfl).2.2⟩

/-- C2: before the identity comparison `get_instance` relocates the shape —
the factored-out transform is returned and the relocated shape is in the
canonical identity pose with its topology key unchanged; on a cache hit no
entry is appended and the caller receives the existing (first-match) index
together with this occurrence's transform; on a miss the appended entry
holds the canonical (transform-free) shape. -/
theorem relocate_canonical_cache_hit {α : Type u} [Group α]
    (s : Solid α) (l : α) (nm : Option String) (rg : Rgba) (insts : Insts α)
    (h : s.loc = some l) :
    ((relocate s).1.loc = some 1 ∧ (relocate s).1.tshape = s.tshape
      ∧ (relocate s).2 = l)
    ∧ (∀ i, insts.findIdx? (fun r => r.1 == s.tshape) = some i →
        get_instance s nm rg insts
          = (.part (nm.getD "Solid") (some i) none rg (some l), insts))
    ∧ (insts.findIdx? (fun r => r.1 == s.tshape) = none →
        (get_instance s nm rg insts).2
          = insts ++ [(s.tshape, ({ s with loc := some 1 } : Solid α))]) := by
  refine ⟨⟨by simp [relocate, h, inv_mul_cancel], by simp [relocate, h],
    by simp [relocate, h]⟩, ?_, ?_⟩
  · intro i hi
    simp [get_instance, relocate, h, hi]
  · intro hn
    simp [get_instance, relocate, h, hn, conv_solid, inv_mul_cancel]

/-- Witness for `relocate_canonical_cache_hit`: a cache hit on a one-entry
table returns index 0 with this occurrence's transform and leaves the table
unchanged; a miss on the empty table appends the canonical entry. -/
theorem relocate_canonical_cache_hit_witness :
    (get_instance (⟨5, some (Multiplicative.ofAdd 2), none⟩ : Solid Mz) none (none, none)
        [(5, ⟨5, some 1, none⟩)]
      = (.part "Solid" (some 0) none (none, none) (some (Multiplicative.ofAdd 2)),
          [(5, ⟨5, some 1, none⟩)]))
    ∧ (get_instance (⟨5, some (Multiplicative.ofAdd 2), none⟩ : Solid Mz) none (none, none)
        []).2 = [(5, ⟨5, some 1, none⟩)] := by
  constructor
  · exact (relocate_canonical_cache_hit (⟨5, some (Multiplicative.ofAdd 2), none⟩ : Solid Mz)
      (Multiplicative.ofAdd 2) none (none, none) [(5, ⟨5, some 1, none⟩)] rfl).2.1 0 rfl
  · have h2 := (relocate_canonical_cache_hit (⟨5, some (Multiplicative.ofAdd 2), none⟩ : Solid Mz)
      (Multiplicative.ofAdd 2) none (none, none) [] rfl).2.2 rfl
    simpa using h2

theorem refsOf_applyNames {α : Type u} : (ns : List String) → (os : PList α) →
    refsOfPL (applyNames ns os) = refsOfPL os
  | [], os => by cases os <;> simp [applyNames]
  | n :: ns, .nil => by simp [applyNames]
  | n :: ns, .cons o os => by
    cases o <;> simp [applyNames, setName, refsOfPL, refsOf_applyNames ns os]

theorem refsOf_renameList {α : Type u} (os : PList α) :
    refsOfPL (renameList os) = refsOfPL os := by
  simp [renameList, refsOf_applyNames]

/-- C1: two input shapes with equal topology identity (`tshape`) at
arbitrary poses build to two shape nodes carrying the same instance
reference `{"ref": 0}`, the instance table holds exactly one entry for that
identity, and the tessellation loop tessellates that entry exactly once
(one mesh comes back for a never-failing generator). -/
theorem dedup_equal_tshape_single_entry {α : Type u} [Group α]
    (t : Nat) (l1 l2 : Option α) :
    refsOfPL (toAssembly
        (.cons (.solidObj ⟨t, l1, none⟩) (.cons (.solidObj ⟨t, l2, none⟩) .nil))
        none none none []).1.objects = [some 0, some 0]
    ∧ ((toAssembly (.cons (.solidObj ⟨t, l1, none⟩)
        (.cons (.solidObj ⟨t, l2, none⟩) .nil)) none none none []).2).map Prod.fst = [t]
    ∧ ∀ m : Nat, tessellate_instances (fun _ => Except.ok m)
        (toAssembly (.cons (.solidObj ⟨t, l1, none⟩)
          (.cons (.solidObj ⟨t, l2, none⟩) .nil)) none none none []).2 = .ok [m] := by
  cases l1 <;> cases l2 <;>
    refine ⟨by simp [toAssembly, toAsmCore, loopObjs, handleObj, get_instance,
        relocate, conv_solid, get_name, orO, emptyPG, pgFix, pgAdd, finishPG,
        flattenTop, CadList.length, PList.push, refsOf_renameList, refsOfPL,
        setName, List.findIdx?_cons, List.findIdx?_nil, pname],
      by simp [toAssembly, toAsmCore, loopObjs, handleObj, get_instance, relocate,
        conv_solid, get_name, orO, emptyPG, pgFix, pgAdd, finishPG, flattenTop,
        CadList.length, PList.push, List.findIdx?_cons, List.findIdx?_nil, pname],
      fun m => by simp [toAssembly, toAsmCore, loopObjs, handleObj, get_instance,
        relocate, conv_solid, get_name, orO, emptyPG, pgFix, pgAdd, finishPG,
        flattenTop, CadList.length, PList.push, List.findIdx?_cons,
        List.findIdx?_nil, pname, tessellate_instances]⟩

theorem asmChildren_name {α : Type u} [Group α] (ocol oalp : Option Nat) :
    (cs : CadList α) → (pg2 : PGroup α) → (insts : Insts α) →
    (asmChildren ocol oalp cs pg2 insts).1.name = pg2.name
  | .nil, _, _ => rfl
  | .cons c rest, pg2, insts => by
    simp only [asmChildren]
    cases hobj : (finishPG (handleObj none ocol oalp c emptyPG insts).1).objects with
    | nil => simpa [pgAdd] using asmChildren_name ocol oalp rest _ _
    | cons x xs =>
      cases xs with
      | nil => simpa [pgAdd] using asmChildren_name ocol oalp rest _ _
      | cons y ys => simpa [pgAdd] using asmChildren_name ocol oalp rest _ _

theorem asmChildren_loc {α : Type u} [Group α] (ocol oalp : Option Nat) :
    (cs : CadList α) → (pg2 : PGroup α) → (insts : Insts α) →
    (asmChildren ocol oalp cs pg2 insts).1.loc = pg2.loc
  | .nil, _, _ => rfl
  | .cons c rest, pg2, insts => by
    simp only [asmChildren]
    cases hobj : (finishPG (handleObj none ocol oalp c emptyPG insts).1).objects with
    | nil => simpa [pgAdd] using asmChildren_loc ocol oalp rest _ _
    | cons x xs =>
      cases xs with
      | nil => simpa [pgAdd] using asmChildren_loc ocol oalp rest _ _
      | cons y ys => simpa [pgAdd] using asmChildren_loc ocol oalp rest _ _

/-- C3 (counterexample): a build123d assembly `B` (location 3, exactly one
solid child) nested inside assembly `A` (location 2) survives in the final
tree as a single-child wrapper group — it is not replaced by its child,
whose transform stays separate. -/
theorem nested_assembly_singleton_group_remains :
    (toAssembly exNested none none none []).1
      = ⟨"Assembly", some (Multiplicative.ofAdd 2),
          .cons (.group "Assembly" (some (Multiplicative.ofAdd 3))
            (.cons (.part "Solid" (some 0) none (none, none) (some 1)) .nil)) .nil⟩
    ∧ hasSingletonGroupL (toAssembly exNested none none none []).1.objects = true :=
  ⟨rfl, rfl⟩

/-- C3 (amended): only the anonymous per-call wrapper groups are flattened:
for a single assembly input, the top-level `"Group"` wrapper never survives
— the result is the assembly's own group (named from its label or
`"Assembly"`), its transform composed as `wrapper.loc * group.loc` with the
wrapper's identity location; moreover, in the nested concrete case, the
lone recursive child is lifted with the `part.loc * child.loc` composition
while the named inner assembly group itself remains with its single
child. -/
theorem assembly_wrapper_flattening {α : Type u} [Group α] (lbl : Option String)
    (loc : Option α) (cs : CadList α) (insts : Insts α) :
    (((toAssembly (.cons (.assembly lbl loc cs) .nil) none none none insts).1).name
        = lbl.getD "Assembly"
      ∧ ((toAssembly (.cons (.assembly lbl loc cs) .nil) none none none insts).1).loc
        = some (loc.getD 1))
    ∧ (toAssembly exNested none none none []).1
        = ⟨"Assembly", some (Multiplicative.ofAdd 2),
            .cons (.group "Assembly" (some (Multiplicative.ofAdd 3))
              (.cons (.part "Solid" (some 0) none (none, none) (some 1)) .nil)) .nil⟩ := by
  refine ⟨⟨?_, ?_⟩, rfl⟩ <;>
    simp [toAssembly, toAsmCore, loopObjs, handleObj, finishPG, flattenTop,
      renameList, namesOfPL, makeUniqueS, muGoS, applyNames, setName, pname,
      emptyPG, pgFix, pgAdd, PList.push, orO, CadList.length,
      asmChildren_name, asmChildren_loc, one_mul]

theorem push_length {α : Type u} : (os : PList α) → (x : PObject α) →
    (os.push x).length = os.length + 1
  | .nil, _ => rfl
  | .cons o os, x => by simp [PList.push, PList.length, push_length os x]; omega

theorem applyNames_length {α : Type u} : (ns : List String) → (os : PList α) →
    (applyNames ns os).length = os.length
  | [], os => by cases os <;> simp [applyNames]
  | n :: ns, .nil => rfl
  | n :: ns, .cons o os => by
    simp [applyNames, PList.length, applyNames_length ns os]

theorem renameList_length {α : Type u} (os : PList α) :
    (renameList os).length = os.length := by
  simp [renameList, applyNames_length]

theorem muGoO_length : (counts : List (String × Nat)) → (l : List (Option String)) →
    (muGoO counts l).length = l.length
  | _, [] => rfl
  | counts, none :: rest => by simp [muGoO, muGoO_length counts rest]
  | counts, some s :: rest => by
    cases h : counts.lookup s <;> simp [muGoO, h, muGoO_length _ rest]

theorem solidsToCad_length {α : Type u} : (ss : List (Solid α)) →
    CadList.length (solidsToCad ss) = ss.length
  | [] => rfl
  | s :: ss => by simp [solidsToCad, CadList.length, solidsToCad_length ss]; omega

theorem handleObj_solid_objects {α : Type u} [Group α] (nm : Option String)
    (c a : Option Nat) (s : Solid α) (pg : PGroup α) (insts : Insts α) :
    (handleObj nm c a (.solidObj s) pg insts).1.objects.length
      = pg.objects.length + 1 := by
  simp only [handleObj]
  cases hf : (insts : List (Nat × Solid α)).findIdx?
      (fun r => r.1 == (relocate s).1.tshape) with
  | none =>
    cases hni : (orO nm s.label).isNone <;>
      simp [get_instance, hf, hni, pgFix, pgAdd, push_length, setName, conv_solid]
  | some i =>
    cases hni : (orO nm s.label).isNone <;>
      simp [get_instance, hf, hni, pgFix, pgAdd, push_length, setName]

theorem loopObjs_solids_len {α : Type u} [Group α] :
    (ss : List (Solid α)) → (ns : List (Option String)) →
    (cols alps : List (Option Nat)) → (pg : PGroup α) → (insts : Insts α) →
    (loopObjs ns cols alps (solidsToCad ss) pg insts).1.objects.length
      = pg.objects.length + min ns.length (min cols.length (min alps.length ss.length))
  | [], ns, cols, alps, pg, insts => by
    cases ns <;> cases cols <;> cases alps <;> simp [solidsToCad, loopObjs]
  | s :: ss, [], cols, alps, pg, insts => by simp [loopObjs]
  | s :: ss, n :: ns, [], alps, pg, insts => by simp [solidsToCad, loopObjs]
  | s :: ss, n :: ns, c :: cols, [], pg, insts => by simp [solidsToCad, loopObjs]
  | s :: ss, n :: ns, c :: cols, a :: alps, pg, insts => by
    simp only [solidsToCad, loopObjs]
    rw [loopObjs_solids_len ss ns cols alps _ _, handleObj_solid_objects]
    simp [List.length_cons]
    omega

/-- C4 (counterexample): `names=["a","b"]` with three objects does not fail
with `LengthMismatch` before tessellation — the build succeeds and produces
a (partial) tree holding only the first two objects, with the third
silently dropped; two instances reach the tessellation table. -/
theorem length_mismatch_build_succeeds :
    ((toAssembly exThreeSolids (some [some "a", some "b"]) none none []).1).objects.length
        = 2
    ∧ namesOfPL ((toAssembly exThreeSolids (some [some "a", some "b"]) none none
        []).1).objects = ["a", "b"]
    ∧ ((toAssembly exThreeSolids (some [some "a", some "b"]) none none []).2).length
        = 2 :=
  ⟨rfl, by decide, rfl⟩

/-- C4 (amended): `_to_assembly` performs no length validation on `names`,
`colors` or `alphas`: the `zip` loop simply truncates to the shortest list,
so a solids build with a `names` list of a different length succeeds and
processes exactly `min (len names) (len objects)` objects; surplus objects
(or surplus names) are silently ignored and no error is raised. -/
theorem zip_truncates_to_min_length {α : Type u} [Group α]
    (ss : List (Solid α)) (ns : List String) :
    ((toAsmCore (solidsToCad ss) (some (ns.map some)) none none []).1).objects.length
      = min ns.length ss.length := by
  simp [toAsmCore, finishPG, renameList_length, loopObjs_solids_len, muGoO_length,
    makeUniqueO, solidsToCad_length, emptyPG, PList.length]

/-- C8 (counterexample): the empty-sequence input `[]` is not replaced by a
zero-size placeholder node: the build emits no node for it at all — the
resulting tree has no children. -/
theorem empty_list_emits_no_node :
    ((toAssembly (.cons (.pyList .nil) .nil : CadList Mz)
        none none none []).1).objects = .nil := rfl

/-- C8 (amended): an input element classifying as a sequence with zero
usable shapes neither crashes the build nor aborts its siblings, but it is
dropped rather than replaced by a placeholder: its empty wrapper group is
skipped (`len(pg2.objects) > 0` fails), so a build of `[[], solid]` yields
a tree with exactly the sibling's node and one tessellation-table entry. -/
theorem empty_list_dropped_siblings_processed {α : Type u} [Group α]
    (t : Nat) (l : Option α) :
    namesOfPL ((toAssembly (.cons (.pyList .nil) (.cons (.solidObj ⟨t, l, none⟩) .nil))
        none none none []).1).objects = ["Solid"]
    ∧ ((toAssembly (.cons (.pyList .nil) (.cons (.solidObj ⟨t, l, none⟩) .nil))
        none none none []).2).length = 1 := by
  cases l <;> constructor <;>
    simp [toAssembly, toAsmCore, loopObjs, handleObj, listChildren, get_instance,
      relocate, conv_solid, get_name, orO, emptyPG, pgFix, pgAdd, finishPG,
      flattenTop, CadList.length, PList.push, namesOfPL, renameList, makeUniqueS,
      muGoS, applyNames, setName, pname, List.findIdx?_nil]

/-- C9 (counterexample): sibling names are not pairwise distinct in every
group of the finished tree: a pre-built part group is added with only its
immediate children renamed, so a nested inner group keeps two children both
named `x`. -/
theorem nested_group_duplicate_names_persist :
    uniqueNamesPG (toAssembly exDupGroup none none none []).1 = false
    ∧ (toAssembly exDupGroup none none none []).1
      = ⟨"outer", some 1,
          .cons (.group "inner" (some 1)
            (.cons (.part "x" none none (none, none) none)
              (.cons (.part "x" none none (none, none) none) .nil))) .nil⟩ :=
  ⟨rfl, rfl⟩

/-- C9 (amended): the `make_unique` sibling-renaming pass runs only at
specific points (the top-level wrapper's children, an assembly group's
children, a multi-child list group's children, and the immediate children
of a directly added pre-built group), where it does deduplicate by
suffixing `~N` in first-seen order — two same-identity solids end up
`"Solid"` and `"Solid~1"` and the root's child names are pairwise distinct;
deeper levels of pre-built groups are left untouched. -/
theorem sibling_rename_where_applied :
    namesOfPL (toAssembly twoSameSolids none none none []).1.objects
        = ["Solid", "Solid~1"]
    ∧ uniqueNamesPG (toAssembly twoSameSolids none none none []).1 = true
    ∧ makeUniqueS ["a", "a", "a", "b"] = ["a", "a~1", "a~2", "b"] :=
  ⟨by decide, rfl, by decide⟩

/-- Witness for `pipeline_rerun_same_box`: on a concrete one-leaf
all-`"shapes"` tree, the second pipeline run returns the same box and
tree as the first. -/
theorem pipeline_rerun_same_box_witness :
    pipeline (fun m l => ⟨0, m, 0, l, 0, 1⟩) [5] exStripped
      = .ok (some (.box ⟨0, 5, 0, 0, 0, 1⟩), exStripped) :=
  pipeline_rerun_same_box (fun m l => ⟨0, m, 0, l, 0, 1⟩) [5]
    (.cons (.leaf "shapes" 0 0 (some (some ⟨9, 9, 9, 9, 9, 9⟩))) .nil) _ _ rfl rfl
